import Mathlib

/-!
Shallow embedding of `more::dispatch_queue` (more-please/more-dispatch-cpp).

The repository contains two variants of the queue:
  * the inline-storage variant (`src/unnamed/part_000`), in which tasks are
    `dispatch_block` values with a fixed inline buffer, and whose
    `run_once` / `run_forever` notify the condition variable on their
    empty-batch return paths;
  * the heap-boxed variant (`src/include/more_dispatch.h`), in which tasks are
    `unique_ptr<dispatch_block>` values and the drain operations never notify.

We model the single-consumer sequential semantics.  Tasks are labelled by
natural numbers; an environment `e : Nat -> List Nat` records which tasks a
task submits to the same queue while it is being invoked (reentrant
dispatch).  A system state records the `_done` flag, the `_queue` vector
(front to back), and two histories: the tasks accepted by `_dispatch`
(in acceptance order) and the tasks invoked (in invocation order).
Condition-variable signalling is modelled by an explicit Boolean
"notified" observable on the operations that the claims inspect.
-/

/-- State of one `dispatch_queue`: the `_done` flag and `_queue` vector of
`src/unnamed/part_000` lines 90-91, extended with the acceptance and
invocation histories needed to state the FIFO / exactly-once properties. -/
structure Sys where
  done : Bool
  queue : List Nat
  accepted : List Nat
  invoked : List Nat
deriving Repr, DecidableEq

/-- A freshly constructed queue: open and empty (`part_000` lines 90-91). -/
def Sys.init : Sys := ⟨false, [], [], []⟩

/-- Embeds `dispatch_queue::_dispatch` (`part_000` lines 93-101): under the
lock, if `_done` return false; otherwise push the block at the tail,
notify, and return true.  The public `dispatch` template (lines 106-110)
adds only the wrapping of the callable, modelled separately below. -/
def dispatchOp (t : Nat) (s : Sys) : Bool × Sys :=
  if s.done then (false, s)
  else (true, { s with queue := s.queue ++ [t], accepted := s.accepted ++ [t] })

/-- Embeds `dispatch_queue::stop` (`part_000` lines 114-119): set `_done`
under the lock and notify all waiters. -/
def stopOp (s : Sys) : Sys := { s with done := true }

/-- The exit condition of `dispatch_queue::wait_until_done`
(`part_000` lines 122-127): the wait loop `while (!_done || !_queue.empty())`
releases the caller exactly when `_done` holds and the vector is empty. -/
def wait_returns (s : Sys) : Bool := s.done && s.queue.isEmpty

/-- Invoking one block (`block.invoke()` in the drain loops): the task is
appended to the invocation history and each task its body submits goes
through `_dispatch` on the same queue, in order. -/
def invokeTask (e : Nat → List Nat) (t : Nat) (s : Sys) : Sys :=
  (e t).foldl (fun s u => (dispatchOp u s).2) { s with invoked := s.invoked ++ [t] }

/-- The `for (auto& block : q) block.invoke();` loop of the drain
operations: invoke a swapped-out batch front to back. -/
def invokeBatch (e : Nat → List Nat) (batch : List Nat) (s : Sys) : Sys :=
  batch.foldl (fun s t => invokeTask e t s) s

/-- Embeds `dispatch_queue::run_once` of the inline-storage variant
(`part_000` lines 130-144): swap the whole vector out under the lock, then,
if the batch is empty and `_done`, notify all and return; otherwise invoke
the batch front to back with the lock released.  The Boolean result records
whether `_cond.notify_all()` was executed. -/
def run_once (e : Nat → List Nat) (s : Sys) : Sys × Bool :=
  if s.queue.isEmpty && s.done then ({ s with queue := [] }, true)
  else (invokeBatch e s.queue { s with queue := [] }, false)

/-- Embeds `dispatch_queue::run_forever` of the inline-storage variant
(`part_000` lines 149-168): wait until the vector is nonempty or `_done`,
swap it out, return (after `assert(_done)` and `notify_all`) if the batch
is empty, otherwise invoke the batch and loop.  `none` models the two ways
the call does not return in the sequential single-consumer setting: the
condition-variable wait blocks with no producer left, or the supplied fuel
is exhausted by reentrant resubmission.  On `some (s, b)`, `b` records that
`notify_all` ran on the return path. -/
def run_forever (e : Nat → List Nat) (fuel : Nat) (s : Sys) : Option (Sys × Bool) :=
  match fuel with
  | 0 => none
  | fuel + 1 =>
    if s.queue.isEmpty && !s.done then none
    else if s.queue.isEmpty then some ({ s with queue := [] }, true)
    else run_forever e fuel (invokeBatch e s.queue { s with queue := [] })

/-- One producer step of `dispatchAll`: submit `t` and record its result. -/
def dispatchStep (p : List Bool × Sys) (t : Nat) : List Bool × Sys :=
  let r := dispatchOp t p.2
  (p.1 ++ [r.1], r.2)

/-- Submitting a whole list of tasks in order, recording each `dispatch`
result. -/
def dispatchAll (ts : List Nat) (s : Sys) : List Bool × Sys :=
  ts.foldl dispatchStep ([], s)

/-- The queue operations a sequential client can perform, used to quantify
over every call sequence.  `wait` is `wait_until_done`, which mutates no
state when it returns; the destructor (lines 171-175) is `stop` followed by
`wait`. -/
inductive Op where
  | dispatch (t : Nat)
  | stop
  | runOnce
  | runForever (fuel : Nat)
  | wait
deriving Repr, DecidableEq

/-- One client operation as a state transformer.  A `runForever` that does
not return (`none`) ends the real trace; it is mapped to the unchanged
state so that later operations remain expressible. -/
def applyOp (e : Nat → List Nat) (op : Op) (s : Sys) : Sys :=
  match op with
  | .dispatch t => (dispatchOp t s).2
  | .stop => stopOp s
  | .runOnce => (run_once e s).1
  | .runForever fuel =>
    match run_forever e fuel s with
    | some r => r.1
    | none => s
  | .wait => s

/-- A sequence of client operations. -/
def applyOps (e : Nat → List Nat) (ops : List Op) (s : Sys) : Sys :=
  ops.foldl (fun s op => applyOp e op s) s

/-- The tasks newly accepted when the list `us` is submitted one by one to a
queue whose `_done` flag is `d`: none if stopped, all of them otherwise. -/
def newOnes (d : Bool) (us : List Nat) : List Nat := if d then [] else us

/-- Concatenation of the resubmissions of a batch of tasks, in invocation
order. -/
def resub (e : Nat → List Nat) : List Nat → List Nat
  | [] => []
  | t :: ts => e t ++ resub e ts

/-- The trivial task environment: tasks that submit nothing. -/
def e0 : Nat → List Nat := fun _ => []

/-- The history invariant of the queue: the acceptance history is exactly
the invocation history followed by the pending vector, in order. -/
def SysInv (s : Sys) : Prop := s.accepted = s.invoked ++ s.queue

theorem dispatch_foldl (us : List Nat) (s : Sys) :
    us.foldl (fun s u => (dispatchOp u s).2) s =
      { s with queue := s.queue ++ newOnes s.done us,
               accepted := s.accepted ++ newOnes s.done us } := by
  induction us generalizing s with
  | nil => simp [newOnes]
  | cons u us ih =>
    simp only [List.foldl_cons]
    by_cases h : s.done = true
    · have h1 : (dispatchOp u s).2 = s := by simp [dispatchOp, h]
      rw [h1, ih]
      simp [newOnes, h]
    · have h1 : (dispatchOp u s).2 =
          { s with queue := s.queue ++ [u], accepted := s.accepted ++ [u] } := by
        simp [dispatchOp, h]
      rw [h1, ih]
      simp [newOnes, h]

theorem invokeTask_eq (e : Nat → List Nat) (t : Nat) (s : Sys) :
    invokeTask e t s =
      { s with invoked := s.invoked ++ [t],
               queue := s.queue ++ newOnes s.done (e t),
               accepted := s.accepted ++ newOnes s.done (e t) } := by
  unfold invokeTask
  rw [dispatch_foldl]

theorem invokeBatch_eq (e : Nat → List Nat) (batch : List Nat) (s : Sys) :
    invokeBatch e batch s =
      { s with invoked := s.invoked ++ batch,
               queue := s.queue ++ newOnes s.done (resub e batch),
               accepted := s.accepted ++ newOnes s.done (resub e batch) } := by
  induction batch generalizing s with
  | nil => simp [invokeBatch, resub, newOnes]
  | cons t bs ih =>
    have h1 : invokeBatch e (t :: bs) s = invokeBatch e bs (invokeTask e t s) := rfl
    rw [h1, invokeTask_eq, ih]
    by_cases h : s.done = true <;> simp [newOnes, resub, h]

theorem run_once_open (e : Nat → List Nat) (s : Sys) (h : s.done = false) :
    run_once e s =
      (⟨false, resub e s.queue, s.accepted ++ resub e s.queue, s.invoked ++ s.queue⟩, false) := by
  unfold run_once
  simp [h, invokeBatch_eq, newOnes]

theorem run_once_empty (e : Nat → List Nat) (s : Sys) (h : s.queue = []) :
    run_once e s = (s, s.done) := by
  rcases s with ⟨d, q, a, i⟩
  simp only at h
  subst h
  cases d <;> simp [run_once, invokeBatch]

theorem run_forever_some (e : Nat → List Nat) (fuel : Nat) (s s' : Sys) (b : Bool)
    (h : run_forever e fuel s = some (s', b)) :
    s'.done = true ∧ s'.queue = [] ∧ b = true := by
  induction fuel generalizing s with
  | zero => simp [run_forever] at h
  | succ fuel ih =>
    rw [run_forever] at h
    split at h
    · exact absurd h (by simp)
    · split at h
      · rename_i h1 h2
        have hd : s.done = true := by
          cases hd : s.done
          · exact absurd (by simp [h2, hd]) h1
          · rfl
        simp only [Option.some.injEq, Prod.mk.injEq] at h
        rcases h with ⟨h3, h4⟩
        subst h3
        exact ⟨hd, rfl, h4.symm⟩
      · exact ih _ h

theorem run_forever_stopped (e : Nat → List Nat) (fuel : Nat) (s : Sys) (h : s.done = true) :
    run_forever e (fuel + 2) s =
      some ({ s with queue := [], invoked := s.invoked ++ s.queue }, true) := by
  rcases s with ⟨d, q, a, i⟩
  simp only at h
  subst h
  cases q with
  | nil => simp [run_forever]
  | cons t ts =>
    rw [run_forever]
    simp only [List.isEmpty_cons, Bool.not_true, Bool.false_and, if_false, Bool.and_false]
    rw [invokeBatch_eq]
    simp only [newOnes, if_pos rfl]
    rw [run_forever]
    simp

theorem inv_dispatchOp (t : Nat) (s : Sys) (h : SysInv s) : SysInv (dispatchOp t s).2 := by
  unfold SysInv dispatchOp at *
  by_cases hd : s.done = true <;> simp [hd, h, List.append_assoc]

theorem inv_run_once (e : Nat → List Nat) (s : Sys) (h : SysInv s) :
    SysInv (run_once e s).1 := by
  unfold SysInv run_once at *
  split
  · rename_i h1
    have hq : s.queue = [] := by
      cases hq : s.queue
      · rfl
      · simp [hq] at h1
    simp [hq] at h
    simp [h, hq]
  · rw [invokeBatch_eq]
    simp [h, List.append_assoc]

theorem inv_invokeBatch (e : Nat → List Nat) (batch : List Nat) (s : Sys)
    (h : s.accepted = s.invoked ++ batch ++ s.queue) :
    SysInv (invokeBatch e batch s) := by
  unfold SysInv
  rw [invokeBatch_eq]
  simp [h, List.append_assoc]

theorem inv_run_forever (e : Nat → List Nat) (fuel : Nat) (s s' : Sys) (b : Bool)
    (h : SysInv s) (hr : run_forever e fuel s = some (s', b)) : SysInv s' := by
  induction fuel generalizing s with
  | zero => simp [run_forever] at hr
  | succ fuel ih =>
    rw [run_forever] at hr
    split at hr
    · exact absurd hr (by simp)
    · split at hr
      · rename_i hempty
        have hq : s.queue = [] := by
          cases hq : s.queue
          · rfl
          · rw [hq] at hempty; simp at hempty
        simp only [Option.some.injEq, Prod.mk.injEq] at hr
        rcases hr with ⟨h3, _⟩
        subst h3
        unfold SysInv at *
        simp [hq] at h
        simp [h, hq]
      · refine ih _ ?_ hr
        refine inv_invokeBatch e s.queue _ ?_
        unfold SysInv at h
        simp [h]

theorem inv_applyOp (e : Nat → List Nat) (op : Op) (s : Sys) (h : SysInv s) :
    SysInv (applyOp e op s) := by
  cases op with
  | dispatch t => exact inv_dispatchOp t s h
  | stop => exact h
  | runOnce => exact inv_run_once e s h
  | runForever fuel =>
    simp only [applyOp]
    cases hr : run_forever e fuel s with
    | none => exact h
    | some r => exact inv_run_forever e fuel s r.1 r.2 h (by rw [hr])
  | wait => exact h

theorem inv_applyOps (e : Nat → List Nat) (ops : List Op) (s : Sys) (h : SysInv s) :
    SysInv (applyOps e ops s) := by
  induction ops generalizing s with
  | nil => exact h
  | cons op ops ih => exact ih _ (inv_applyOp e op s h)

theorem inv_reachable (e : Nat → List Nat) (ops : List Op) :
    SysInv (applyOps e ops Sys.init) :=
  inv_applyOps e ops Sys.init rfl

theorem done_applyOp (e : Nat → List Nat) (op : Op) (s : Sys) (h : s.done = true) :
    (applyOp e op s).done = true := by
  cases op with
  | dispatch t =>
    simp [applyOp, dispatchOp, h]
  | stop => rfl
  | runOnce =>
    simp only [applyOp, run_once]
    split
    · exact h
    · rw [invokeBatch_eq]
      exact h
  | runForever fuel =>
    simp only [applyOp]
    cases hr : run_forever e fuel s with
    | none => exact h
    | some r => exact (run_forever_some e fuel s r.1 r.2 (by rw [hr])).1
  | wait => exact h

theorem done_applyOps (e : Nat → List Nat) (ops : List Op) (s : Sys) (h : s.done = true) :
    (applyOps e ops s).done = true := by
  induction ops generalizing s with
  | nil => exact h
  | cons op ops ih => exact ih _ (done_applyOp e op s h)

theorem dispatchAll_foldl (ts : List Nat) (acc : List Bool) (s : Sys) (h : s.done = false) :
    ts.foldl dispatchStep (acc, s) =
      (acc ++ List.replicate ts.length true,
       { s with queue := s.queue ++ ts, accepted := s.accepted ++ ts }) := by
  induction ts generalizing acc s with
  | nil => simp
  | cons t ts ih =>
    have h1 : dispatchStep (acc, s) t =
        (acc ++ [true], { s with queue := s.queue ++ [t], accepted := s.accepted ++ [t] }) := by
      simp [dispatchStep, dispatchOp, h]
    rw [List.foldl_cons, h1, ih]
    · simp [List.replicate_succ, List.append_assoc]
    · exact h

theorem dispatchAll_init (ts : List Nat) :
    dispatchAll ts Sys.init = (List.replicate ts.length true, ⟨false, ts, ts, []⟩) := by
  unfold dispatchAll
  rw [dispatchAll_foldl ts [] Sys.init rfl]
  simp [Sys.init]

/-- The size check of `movable_function::move_to` (`part_000` lines 35-39):
`assert(size >= sizeof(*this))` before the placement move of the payload
into the destination buffer.  A failed assertion is modelled as an error. -/
def move_to (selfSize destSize : Nat) : Except Unit Unit :=
  if selfSize ≤ destSize then Except.ok () else Except.error ()

/-- The converting constructor `dispatch_block(movable_function_base&&)`
(`part_000` lines 54-57): it hands its own object, of size
`sizeof(dispatch_block)` (the three-pointer `_space` plus the virtual
dispatch identity), to the source's `move_to`.  It succeeds, placing the
payload entirely inside the inline buffer, exactly when the erased
representation fits. -/
def mk_dispatch_block (mfSize dbSize : Nat) : Except Unit Unit :=
  move_to mfSize dbSize

/-- The full path of `dispatch_queue::dispatch` for a callable whose erased
`movable_function` representation has size `mfSize`, on a queue of blocks
of size `dbSize`: the block conversion runs first (construction time);
only if it succeeds does `_dispatch` run. -/
def dispatch_sized (mfSize dbSize : Nat) (t : Nat) (s : Sys) : Except Unit (Bool × Sys) :=
  match mk_dispatch_block mfSize dbSize with
  | Except.error u => Except.error u
  | Except.ok _ => Except.ok (dispatchOp t s)

/-- The caller's callable object: `dispatch(F&& lambda)` (`part_000` lines
106-110) constructs `movable_function<F>(std::move(lambda))`, consuming the
caller's object, before `_dispatch` ever looks at `_done`. -/
structure Caller where
  lambdaMoved : Bool
deriving Repr, DecidableEq

/-- The public `dispatch` template observed together with the moved-from
state of the caller's callable: the callable is moved unconditionally, then
`_dispatch` decides acceptance. -/
def dispatch_full (t : Nat) (s : Sys) (_c : Caller) : Bool × Sys × Caller :=
  ((dispatchOp t s).1, (dispatchOp t s).2, ⟨true⟩)

/-- Embeds `dispatch_queue::run_once` of the heap-boxed variant
(`src/include/more_dispatch.h` lines 107-118): swap the vector out and
invoke the batch; there is no empty-batch test and `notify_all` is never
called. -/
def run_once_v1 (e : Nat → List Nat) (s : Sys) : Sys × Bool :=
  (invokeBatch e s.queue { s with queue := [] }, false)

/-- Embeds `dispatch_queue::run_forever` of the heap-boxed variant
(`src/include/more_dispatch.h` lines 123-138): identical wait/swap/invoke
loop, but the empty-batch return path has no `assert` and no
`notify_all`. -/
def run_forever_v1 (e : Nat → List Nat) (fuel : Nat) (s : Sys) : Option (Sys × Bool) :=
  match fuel with
  | 0 => none
  | fuel + 1 =>
    if s.queue.isEmpty && !s.done then none
    else if s.queue.isEmpty then some ({ s with queue := [] }, false)
    else run_forever_v1 e fuel (invokeBatch e s.queue { s with queue := [] })

/-- A sample environment used by witnesses: task 1 resubmits task 5. -/
def eR : Nat → List Nat := fun t => if t = 1 then [5] else []

theorem resub_e0 (ts : List Nat) : resub e0 ts = [] := by
  induction ts with
  | nil => rfl
  | cons t ts ih => simp [resub, e0, ih]

/-- C1: tasks t1..tn submitted via `dispatch` to an idle single-consumer
queue are all accepted, `dispatch` appends each to the tail (the vector
holds them in submission order), and each drain pass — `run_once`, or
`run_forever` after `stop` — invokes its swapped-out batch front to back,
so the invocation history is exactly t1..tn in submission order. -/
theorem C1_fifo_order (ts : List Nat) :
    dispatchAll ts Sys.init = (List.replicate ts.length true, ⟨false, ts, ts, []⟩) ∧
    run_once e0 ⟨false, ts, ts, []⟩ = (⟨false, [], ts, ts⟩, false) ∧
    run_forever e0 2 (stopOp ⟨false, ts, ts, []⟩) = some (⟨true, [], ts, ts⟩, true) := by
  refine ⟨dispatchAll_init ts, ?_, ?_⟩
  · rw [run_once_open e0 ⟨false, ts, ts, []⟩ rfl]
    simp [resub_e0]
  · simpa [stopOp] using run_forever_stopped e0 0 (stopOp ⟨false, ts, ts, []⟩) rfl

/-- C2: after `stop` has returned, every subsequent `dispatch` on the queue
— under any further sequence of operations — returns false and leaves the
sequence (and the whole state) unchanged. -/
theorem C2_stop_rejects (e : Nat → List Nat) (ops : List Op) (t : Nat) (s : Sys) :
    dispatchOp t (applyOps e ops (stopOp s)) = (false, applyOps e ops (stopOp s)) := by
  have h : (applyOps e ops (stopOp s)).done = true := done_applyOps e ops (stopOp s) rfl
  simp [dispatchOp, h]

/-- C3: in every reachable state, `wait_until_done` returns exactly when
the queue is stopped and its sequence is empty, and in that case the
invocation history equals the acceptance history — no previously accepted
task remains un-invoked. -/
theorem C3_wait_until_done (e : Nat → List Nat) (ops : List Op) :
    wait_returns (applyOps e ops Sys.init) = true ↔
      ((applyOps e ops Sys.init).done = true ∧ (applyOps e ops Sys.init).queue = [] ∧
       (applyOps e ops Sys.init).invoked = (applyOps e ops Sys.init).accepted) := by
  have hinv := inv_reachable e ops
  unfold SysInv at hinv
  unfold wait_returns
  constructor
  · intro h
    rw [Bool.and_eq_true] at h
    obtain ⟨h1, h2⟩ := h
    have hq : (applyOps e ops Sys.init).queue = [] := by
      cases hq : (applyOps e ops Sys.init).queue
      · rfl
      · rw [hq] at h2; simp at h2
    refine ⟨h1, hq, ?_⟩
    rw [hinv, hq, List.append_nil]
  · rintro ⟨h1, h2, _⟩
    simp [h1, h2]

/-- C4: whenever `run_forever` returns, the swap that ended it produced an
empty batch with the queue already stopped (so the `assert(_done)` cannot
fire), the queue is stopped and empty on return, `notify_all` ran on the
return path, and `wait_until_done`'s exit condition holds — waiters are
released. -/
theorem C4_run_forever_termination (e : Nat → List Nat) (fuel : Nat) (s s' : Sys) (b : Bool)
    (h : run_forever e fuel s = some (s', b)) :
    s'.done = true ∧ s'.queue = [] ∧ b = true ∧ wait_returns s' = true := by
  obtain ⟨h1, h2, h3⟩ := run_forever_some e fuel s s' b h
  refine ⟨h1, h2, h3, ?_⟩
  simp [wait_returns, h1, h2]

theorem C4_witness :
    run_forever e0 1 ⟨true, [], [], []⟩ = some (⟨true, [], [], []⟩, true) ∧
    ((⟨true, [], [], []⟩ : Sys).done = true ∧ (⟨true, [], [], []⟩ : Sys).queue = [] ∧
     true = true ∧ wait_returns ⟨true, [], [], []⟩ = true) :=
  ⟨by decide,
   C4_run_forever_termination e0 1 ⟨true, [], [], []⟩ ⟨true, [], [], []⟩ true (by decide)⟩

/-- C5: a callable whose erased `movable_function` representation is larger
than `dispatch_block`'s inline capacity fails at construction time — the
`move_to` size assertion fires before anything is enqueued or invoked —
while a callable that fits is accepted and stored in the inline buffer,
after which submission proceeds normally. -/
theorem C5_capacity (mfSize dbSize t : Nat) (s : Sys) :
    (dbSize < mfSize → dispatch_sized mfSize dbSize t s = Except.error ()) ∧
    (mfSize ≤ dbSize → dispatch_sized mfSize dbSize t s = Except.ok (dispatchOp t s)) := by
  constructor
  · intro h
    simp [dispatch_sized, mk_dispatch_block, move_to, Nat.not_le.mpr h]
  · intro h
    simp [dispatch_sized, mk_dispatch_block, move_to, h]

theorem C5_witness :
    (32 < 40 ∧ dispatch_sized 40 32 7 Sys.init = Except.error ()) ∧
    (24 ≤ 32 ∧ dispatch_sized 24 32 7 Sys.init = Except.ok (dispatchOp 7 Sys.init)) :=
  ⟨⟨by decide, (C5_capacity 40 32 7 Sys.init).1 (by decide)⟩,
   ⟨by decide, (C5_capacity 24 32 7 Sys.init).2 (by decide)⟩⟩

/-- C6: after any sequence of operations followed by `stop`, a consumer
running `run_forever` terminates (two passes suffice once the queue is
stopped) in a state whose invocation history equals the acceptance history:
every accepted task has been invoked exactly once — N accepted tasks yield
exactly N invocations, none dropped, none duplicated. -/
theorem C6_exactly_once (e : Nat → List Nat) (ops : List Op) :
    run_forever e 2 (stopOp (applyOps e ops Sys.init)) =
      some (⟨true, [], (applyOps e ops Sys.init).accepted,
             (applyOps e ops Sys.init).accepted⟩, true) := by
  have hinv := inv_reachable e ops
  unfold SysInv at hinv
  have h2 : run_forever e 2 (stopOp (applyOps e ops Sys.init)) =
      some ({ stopOp (applyOps e ops Sys.init) with
                queue := [],
                invoked := (stopOp (applyOps e ops Sys.init)).invoked ++
                  (stopOp (applyOps e ops Sys.init)).queue },
            true) :=
    run_forever_stopped e 0 (stopOp (applyOps e ops Sys.init)) rfl
  rw [h2]
  simp [stopOp, hinv]

/-- C7: `run_once` swaps the entire sequence out as one batch, leaving the
queue's sequence empty, and invokes the batch front to back outside the
lock; tasks the batch resubmits are accepted (no deadlock) and form the new
sequence — a later batch — rather than being invoked in this pass; and an
empty batch means `run_once` invokes nothing and leaves the state as it
was. -/
theorem C7_run_once_swap (e : Nat → List Nat) (s : Sys) :
    (s.done = false →
      run_once e s =
        (⟨false, resub e s.queue, s.accepted ++ resub e s.queue, s.invoked ++ s.queue⟩,
         false)) ∧
    (s.queue = [] → run_once e s = (s, s.done)) :=
  ⟨run_once_open e s, run_once_empty e s⟩

theorem C7_witness :
    ((⟨false, [1], [1], []⟩ : Sys).done = false ∧
     run_once eR ⟨false, [1], [1], []⟩ = (⟨false, [5], [1, 5], [1]⟩, false)) ∧
    ((⟨true, [], [2], [2]⟩ : Sys).queue = [] ∧
     run_once eR ⟨true, [], [2], [2]⟩ = (⟨true, [], [2], [2]⟩, true)) :=
  ⟨⟨rfl, (C7_run_once_swap eR ⟨false, [1], [1], []⟩).1 rfl⟩,
   ⟨rfl, (C7_run_once_swap eR ⟨true, [], [2], [2]⟩).2 rfl⟩⟩

/-- C8: the `_done` flag is monotonic — once `stop` has set it, no sequence
of queue operations (`dispatch`, `stop`, `run_once`, `run_forever`,
`wait_until_done`, and hence the destructor, which is `stop` then wait)
ever clears it — and `stop` is idempotent. -/
theorem C8_done_monotone (e : Nat → List Nat) (ops : List Op) (s : Sys) :
    stopOp (stopOp s) = stopOp s ∧
    (s.done = true → (applyOps e ops s).done = true) :=
  ⟨rfl, done_applyOps e ops s⟩

theorem C8_witness :
    stopOp (stopOp Sys.init) = stopOp Sys.init ∧
    ((⟨true, [], [], []⟩ : Sys).done = true ∧
     (applyOps e0 [Op.runOnce, Op.wait] ⟨true, [], [], []⟩).done = true) :=
  ⟨(C8_done_monotone e0 [] Sys.init).1,
   ⟨rfl, (C8_done_monotone e0 [Op.runOnce, Op.wait] ⟨true, [], [], []⟩).2 rfl⟩⟩

/-- C9: `dispatch` on a stopped queue is atomic in failure — it returns
false and leaves the sequence and the `_done` flag exactly as they were —
yet the caller's callable has already been moved out (consumed by the
`movable_function` construction, which precedes the `_done` check) and,
since the state is unchanged, the task is never enqueued and never
invoked. -/
theorem C9_failed_dispatch (t : Nat) (s : Sys) (c : Caller) (h : s.done = true) :
    dispatch_full t s c = (false, s, ⟨true⟩) := by
  simp [dispatch_full, dispatchOp, h]

theorem C9_witness :
    (⟨true, [7], [7], []⟩ : Sys).done = true ∧
    dispatch_full 3 ⟨true, [7], [7], []⟩ ⟨false⟩ = (false, ⟨true, [7], [7], []⟩, ⟨true⟩) :=
  ⟨rfl, C9_failed_dispatch 3 ⟨true, [7], [7], []⟩ ⟨false⟩ rfl⟩

/-- C10 counterexample: on an empty, stopped queue the inline-storage
variant's `run_once` executes `_cond.notify_all()` (releasing threads
blocked in `wait_until_done`) while the heap-boxed variant's `run_once`
performs no notification at all, so the two versions do not unblock
`wait_until_done` waiters in the same states — the claimed observational
equivalence fails at this concrete input. -/
theorem C10_counterexample :
    (run_once e0 ⟨true, [], [], []⟩).2 = true ∧
    (run_once_v1 e0 ⟨true, [], [], []⟩).2 = false := by
  constructor <;> rfl

/-- C10 amended: the heap-boxed and inline-storage queues are equivalent in
their return values, invocations and state evolution — `run_once` and
`run_forever` produce identical states (and `dispatch`, `stop`,
`wait_until_done` are the same code in both) — but not in wake signalling:
only the inline-storage variant notifies waiters from `run_once` on an
empty stopped queue and from `run_forever`'s return path. -/
theorem C10_state_equivalence (e : Nat → List Nat) (s : Sys) (fuel : Nat) :
    (run_once_v1 e s).1 = (run_once e s).1 ∧
    Option.map Prod.fst (run_forever_v1 e fuel s) =
      Option.map Prod.fst (run_forever e fuel s) := by
  constructor
  · unfold run_once run_once_v1
    split
    · rename_i h
      rw [Bool.and_eq_true] at h
      have hq : s.queue = [] := by
        cases hq : s.queue
        · rfl
        · rw [hq] at h; simp at h
      simp [hq, invokeBatch]
    · rfl
  · induction fuel generalizing s with
    | zero => rfl
    | succ fuel ih =>
      rw [run_forever, run_forever_v1]
      by_cases h1 : (s.queue.isEmpty && !s.done) = true
      · simp [h1]
      · by_cases h2 : s.queue.isEmpty = true
        · cases hd : s.done <;> simp [h1, h2, hd]
        · simp only [h1, h2, if_false]
          exact ih _
